import Mathlib

/-!
Verification of the phpMyAdmin table scraper (`src/main.py`).

The scraper is a single linear workflow: set up an HTTP session, fetch the
login page and build a form payload from its hidden inputs, POST the
credentials, check authentication markers in the response body, GET the table
view, parse the results table, and print it.  We embed the pure parts
(marker check, form-payload construction, table parsing, printing) as Lean
functions over an HTML node tree mirroring BeautifulSoup's `html.parser`
document model, and the `run` orchestration as a trace-producing function
over an environment that fixes the outcome of each HTTP step.
-/

set_option autoImplicit false

namespace PmaScraper

/-- An HTML document node: an element with a tag name, attributes and
children, or a text node.  Mirrors the BeautifulSoup `Tag` /
`NavigableString` distinction used by `main.py`. -/
inductive Node where
  | elem (tag : String) (attrs : List (String × String)) (children : List Node)
  | text (s : String)

/-- Attribute lookup on an attribute list (first binding wins, as in a
parsed HTML element where duplicate attributes are dropped). -/
def getAttrList (attrs : List (String × String)) (k : String) : Option String :=
  (attrs.find? (fun p => p.1 == k)).map (fun p => p.2)

/-- Attribute lookup on a node (`none` on a text node). -/
def nodeAttr (n : Node) (k : String) : Option String :=
  match n with
  | .elem _ attrs _ => getAttrList attrs k
  | .text _ => none

/-- Python whitespace (`str.strip` / `str.split` with no argument). -/
def isPySpace (c : Char) : Bool :=
  c == ' ' || c == '\t' || c == '\n' || c == '\r' || c == '\x0b' || c == '\x0c'

/-- `str.strip()` on a character list: drop whitespace from both ends. -/
def trimChars (cs : List Char) : List Char :=
  ((cs.dropWhile isPySpace).reverse.dropWhile isPySpace).reverse

/-- `str.strip()`. -/
def strTrim (s : String) : String :=
  String.mk (trimChars s.toList)

/-- Split a character list on a separator character, keeping empty
fields (the token list of a `class` attribute value). -/
def splitTokens (sep : Char) : List Char → List (List Char)
  | [] => [[]]
  | c :: rest =>
    let r := splitTokens sep rest
    if c == sep then [] :: r
    else (c :: r.headD []) :: r.tail

/-- BeautifulSoup class matching: the `class` attribute is split on spaces
and the search matches when the sought class is one of the tokens. -/
def hasClass (attrs : List (String × String)) (c : String) : Bool :=
  match getAttrList attrs "class" with
  | some v => (splitTokens ' ' v.toList).contains c.toList
  | none => false

/-- `bool(tag)` in Python: BeautifulSoup tags answer `len(tag.contents)`
for truthiness, so an element is falsy iff it has no children; a
`NavigableString` is falsy iff it is empty. -/
def tagTruthy : Node → Bool
  | .elem _ _ cs => !cs.isEmpty
  | .text s => !s.isEmpty

mutual

/-- First node matching `p` in a forest, in document (pre)order: a node is
visited before its children; BeautifulSoup's `find` over descendants. -/
def findNode (p : Node → Bool) : List Node → Option Node
  | [] => none
  | n :: rest =>
    match findWithin p n with
    | some r => some r
    | none => findNode p rest

/-- First node matching `p` in the subtree rooted at `n` (including `n`). -/
def findWithin (p : Node → Bool) (n : Node) : Option Node :=
  if p n then some n
  else
    match n with
    | .elem _ _ cs => findNode p cs
    | .text _ => none

end

mutual

/-- All nodes matching `p` in a forest, in document (pre)order;
BeautifulSoup's `find_all` over descendants. -/
def findAllNodes (p : Node → Bool) : List Node → List Node
  | [] => []
  | n :: rest => findAllWithin p n ++ findAllNodes p rest

/-- All nodes matching `p` in the subtree rooted at `n` (including `n`). -/
def findAllWithin (p : Node → Bool) (n : Node) : List Node :=
  (if p n then [n] else []) ++
    match n with
    | .elem _ _ cs => findAllNodes p cs
    | .text _ => []

end

/-- Every node of a document, in document order. -/
def allNodes (doc : List Node) : List Node :=
  findAllNodes (fun _ => true) doc

/-- `tag.find(p)`: first strict descendant of `n` matching `p`. -/
def findDesc (p : Node → Bool) (n : Node) : Option Node :=
  match n with
  | .elem _ _ cs => findNode p cs
  | .text _ => none

/-- `tag.find_all(p)`: all strict descendants of `n` matching `p`. -/
def findAllDesc (p : Node → Bool) (n : Node) : List Node :=
  match n with
  | .elem _ _ cs => findAllNodes p cs
  | .text _ => []

mutual

/-- The text fragments of a subtree, in document order. -/
def nodeTexts : Node → List String
  | .text s => [s]
  | .elem _ _ cs => forestTexts cs

/-- The text fragments of a forest, in document order. -/
def forestTexts : List Node → List String
  | [] => []
  | n :: rest => nodeTexts n ++ forestTexts rest

end

/-- `tag.get_text(strip=True)`: each text fragment of the subtree is
stripped of surrounding whitespace and the results are concatenated. -/
def getTextStrip (n : Node) : String :=
  String.join ((nodeTexts n).map strTrim)

/-- Character-list prefix test (`needle` begins `hay`). -/
def prefMatch : List Char → List Char → Bool
  | [], _ => true
  | _ :: _, [] => false
  | a :: as, b :: bs => a == b && prefMatch as bs

/-- Character-list substring test, the semantics of Python's
`needle in hay` on strings. -/
def subMatch (needle : List Char) : List Char → Bool
  | [] => needle.isEmpty
  | c :: t => prefMatch needle (c :: t) || subMatch needle t

/-- Python's `needle in hay` for strings. -/
def strIn (needle hay : String) : Bool :=
  subMatch needle.toList hay.toList

/-- `PhpMyAdminScraper._check_auth_success`: authentication failed iff the
response body contains neither `"frame_navigation"` nor
`"pma_navigation_tree"`. -/
def checkAuthSuccess (body : String) : Bool :=
  if !strIn "frame_navigation" body && !strIn "pma_navigation_tree" body then
    false
  else
    true

/-- The search target of `soup.find("table", {"class": "table_results"})`. -/
def isTableResults (n : Node) : Bool :=
  match n with
  | .elem t attrs _ => t == "table" && hasClass attrs "table_results"
  | .text _ => false

/-- The search target of `find_all("th", {"class": "column_heading"})`. -/
def isColumnHeading (n : Node) : Bool :=
  match n with
  | .elem t attrs _ => t == "th" && hasClass attrs "column_heading"
  | .text _ => false

/-- The search target of `find(tagName)` / `find_all(tagName)`. -/
def isTag (tagName : String) (n : Node) : Bool :=
  match n with
  | .elem t _ _ => t == tagName
  | .text _ => false

/-- The search target of `soup.find("form", {"id": "login_form"})`. -/
def isLoginForm (n : Node) : Bool :=
  match n with
  | .elem t attrs _ => t == "form" && getAttrList attrs "id" == some "login_form"
  | .text _ => false

/-- The search target of `find_all("input", type="hidden")`. -/
def isHiddenInput (n : Node) : Bool :=
  match n with
  | .elem t attrs _ => t == "input" && getAttrList attrs "type" == some "hidden"
  | .text _ => false

/-- `PhpMyAdminScraper._parse_table_data` on a parsed document.  `none`
stands for the `(None, None)` sentinel: returned when no (truthy)
`table_results` element exists, and when the found table has no `tbody`
descendant — there `find("tbody")` yields `None`, the subsequent
`.find_all("tr")` raises `AttributeError`, and the handler converts the
exception to the sentinel. -/
def parseTableData (doc : List Node) : Option (List String × List (List String)) :=
  match findNode isTableResults doc with
  | none => none
  | some tbl =>
    if !tagTruthy tbl then none
    else
      let headers := (findAllDesc isColumnHeading tbl).map (fun th =>
        match findDesc (isTag "a") th with
        | some a => getTextStrip a
        | none => getTextStrip th)
      match findDesc (isTag "tbody") tbl with
      | none => none
      | some tb =>
        let rows := (findAllDesc (isTag "tr") tb).map (fun tr =>
          ((findAllDesc (isTag "td") tr).drop 4).map getTextStrip)
        some (headers, rows)

/-- Python dict assignment `d[k] = v` on a dict represented as its
insertion-ordered entry list: an existing key keeps its position and gets
the new value, a new key is appended. -/
def dictInsert (d : List (String × String)) (k v : String) : List (String × String) :=
  if d.any (fun p => p.1 == k) then
    d.map (fun p => if p.1 == k then (k, v) else p)
  else
    d ++ [(k, v)]

/-- One iteration of the hidden-field loop in `_get_login_form_data`:
inputs lacking a `name` or `value` attribute are skipped. -/
def addHidden (d : List (String × String)) (h : Node) : List (String × String) :=
  match nodeAttr h "name", nodeAttr h "value" with
  | some n, some v => dictInsert d n v
  | _, _ => d

/-- The parsing part of `PhpMyAdminScraper._get_login_form_data` on the
already-fetched login page.  `none` stands for the `ValueError` raised when
the `login_form` element is missing (or falsy); otherwise the payload starts
from the two credential keys and folds every hidden input of the form in
document order. -/
def getLoginFormData (u p : String) (page : List Node) :
    Option (List (String × String)) :=
  match findNode isLoginForm page with
  | none => none
  | some form =>
    if !tagTruthy form then none
    else
      some ((findAllDesc isHiddenInput form).foldl addHidden
        [("pma_username", u), ("pma_password", p)])

/-- The separator line printed by `_print_results`:
`"-" * (sum(len(h) for h in headers) + 3 * (len(headers) - 1))`. -/
def sepLine (headers : List String) : String :=
  String.mk (List.replicate
    ((headers.map String.length).sum + 3 * (headers.length - 1)) '-')

/-- `PhpMyAdminScraper._print_results` as the list of lines it writes to
standard output, in order. -/
def printResults (headers : List String) (rows : List (List String)) :
    List String :=
  "\nРезультат:" :: String.intercalate " | " headers :: sepLine headers ::
    rows.map (String.intercalate " | ")

/-- Observable events of one `run`: the session-close invocation, an
invocation of the result presenter, and error/critical log records. -/
inductive Ev where
  | close
  | present (hdrs : List String) (rows : List (List String))
  | logError
  | logCritical
  deriving Repr, DecidableEq

/-- Outcome of one HTTP step (the request together with
`raise_for_status`): a value, a raised `requests.RequestException`, or some
other raised exception. -/
inductive StepOutcome (α : Type) where
  | ok (a : α)
  | reqExc
  | otherExc

/-- Environment fixing the outcome of each externally-visible step of a
run: the login-page GET (as a parsed document), the login POST (as a
response body), the table GET (as a parsed document), and whether
`_print_results` raises while printing. -/
structure RunEnv where
  loginGet : StepOutcome (List Node)
  postLogin : StepOutcome String
  tableGet : StepOutcome (List Node)
  printFails : Bool

/-- The events of the `try`/`except` part of `PhpMyAdminScraper.run`.  Any
failure in `_get_login_form_data` is logged and re-raised, reaching the
top-level handler (critical log); a missing login form additionally logs
once more, since the `ValueError` is re-caught by the function's own
generic handler.  `RequestException` from the POST or the table GET is
caught locally (error log, early return); any other exception there reaches
the top-level handler.  The presenter runs only when the parsed headers and
rows are both truthy; if it raises, the exception is logged and re-raised
to the top-level handler. -/
def runBody (u p : String) (env : RunEnv) : List Ev :=
  match env.loginGet with
  | .reqExc => [.logError, .logCritical]
  | .otherExc => [.logError, .logCritical]
  | .ok page =>
    match getLoginFormData u p page with
    | none => [.logError, .logError, .logCritical]
    | some _fd =>
      match env.postLogin with
      | .reqExc => [.logError]
      | .otherExc => [.logCritical]
      | .ok body =>
        if checkAuthSuccess body then
          match env.tableGet with
          | .reqExc => [.logError]
          | .otherExc => [.logCritical]
          | .ok html =>
            match parseTableData html with
            | none => []
            | some (hdrs, rows) =>
              if !hdrs.isEmpty && !rows.isEmpty then
                Ev.present hdrs rows ::
                  (if env.printFails then [.logError, .logCritical] else [])
              else []
        else []

/-- `PhpMyAdminScraper.run` as the trace of observable events: the `try`
block (with its handlers), then the `finally` block, which always invokes
`session.close()` exactly once. -/
def runScraper (u p : String) (env : RunEnv) : List Ev :=
  runBody u p env ++ [Ev.close]

/-- A hidden input of the login form carrying the name/value pair `nv`. -/
def mkHidden (nv : String × String) : Node :=
  .elem "input" [("type", "hidden"), ("name", nv.1), ("value", nv.2)] []

/-- The submit button of the login form: an input that is not hidden, so
the hidden-input search skips it. -/
def mkSubmit : Node :=
  .elem "input" [("type", "submit"), ("value", "Go")] []

/-- A login page whose `login_form` carries exactly the hidden fields `hs`
(plus the submit button every login form has). -/
def mkLoginPage (hs : List (String × String)) : List Node :=
  [.elem "form" [("id", "login_form")] (hs.map mkHidden ++ [mkSubmit])]

/-- A header cell of the results table: a `th` of class `column_heading`
whose label is `h.2`; when `h.1` is true the label sits inside an inner
sort link `a` and the cell also carries stray text outside the link, so the
two text-extraction branches of the parser genuinely differ. -/
def mkHeaderCell (h : Bool × String) : Node :=
  if h.1 then
    .elem "th" [("class", "column_heading")]
      [.text "stray", .elem "a" [("href", "sort")] [.text h.2]]
  else
    .elem "th" [("class", "column_heading")] [.text h.2]

/-- A data cell `td` holding the text `s`. -/
def mkDataCell (s : String) : Node :=
  .elem "td" [] [.text s]

/-- A body row `tr` whose cells hold the texts `cells` (in a real results
table the first four are action controls). -/
def mkBodyRow (cells : List String) : Node :=
  .elem "tr" [] (cells.map mkDataCell)

/-- A well-formed results table: class `table_results`, a `thead` row of
header cells, and a `tbody` of body rows. -/
def mkResultsTable (hdrs : List (Bool × String)) (rws : List (List String)) :
    Node :=
  .elem "table" [("class", "table_results")]
    [.elem "thead" [] [.elem "tr" [] (hdrs.map mkHeaderCell)],
     .elem "tbody" [] (rws.map mkBodyRow)]

/-- A results table with header cells and row elements but no `tbody`
anywhere: the rows hang directly off the table element. -/
def mkTableNoTbody (hdrs : List (Bool × String)) (rws : List (List String)) :
    Node :=
  .elem "table" [("class", "table_results")]
    (.elem "thead" [] [.elem "tr" [] (hdrs.map mkHeaderCell)] :: rws.map mkBodyRow)

/-! ## Substring semantics and the authentication check -/

theorem prefMatch_iff (n : List Char) : ∀ h : List Char,
    prefMatch n h = true ↔ ∃ t, h = n ++ t := by
  induction n with
  | nil => intro h; simp [prefMatch]
  | cons a as ih =>
    intro h
    cases h with
    | nil =>
      simp [prefMatch]
    | cons b bs =>
      simp only [prefMatch, Bool.and_eq_true, beq_iff_eq, ih, List.cons_append,
        List.cons_eq_cons]
      constructor
      · rintro ⟨hab, t, ht⟩
        exact ⟨t, hab.symm, ht⟩
      · rintro ⟨t, hba, ht⟩
        exact ⟨hba.symm, t, ht⟩

theorem subMatch_iff (n : List Char) : ∀ h : List Char,
    subMatch n h = true ↔ ∃ s t, h = s ++ n ++ t := by
  intro h
  induction h with
  | nil =>
    simp [subMatch, List.isEmpty_iff]
  | cons c cs ih =>
    simp only [subMatch, Bool.or_eq_true, prefMatch_iff, ih]
    constructor
    · rintro (⟨t, ht⟩ | ⟨s, t, hst⟩)
      · exact ⟨[], t, by simpa using ht⟩
      · exact ⟨c :: s, t, by simp [hst]⟩
    · rintro ⟨s, t, hst⟩
      cases s with
      | nil => exact Or.inl ⟨t, by simpa using hst⟩
      | cons d ds =>
        rcases List.cons_eq_cons.mp (by simpa using hst) with ⟨rfl, h2⟩
        exact Or.inr ⟨ds, t, by simpa using h2⟩

/-- `strIn needle hay` holds exactly when `needle` occurs contiguously
inside `hay`. -/
theorem strIn_iff (needle hay : String) :
    strIn needle hay = true ↔
      ∃ s t, hay.toList = s ++ needle.toList ++ t := by
  unfold strIn
  exact subMatch_iff needle.toList hay.toList

theorem checkAuthSuccess_eq_or (body : String) :
    checkAuthSuccess body =
      (strIn "frame_navigation" body || strIn "pma_navigation_tree" body) := by
  unfold checkAuthSuccess
  cases hf : strIn "frame_navigation" body <;>
    cases hp : strIn "pma_navigation_tree" body <;> simp

/-- C1: `_check_auth_success` returns true iff the response body contains
`"frame_navigation"` or `"pma_navigation_tree"` as a substring, and returns
false for a body containing neither marker. -/
theorem check_auth_success_iff_marker (body : String) :
    (checkAuthSuccess body = true ↔
      ((∃ s t, body.toList = s ++ "frame_navigation".toList ++ t) ∨
       (∃ s t, body.toList = s ++ "pma_navigation_tree".toList ++ t))) ∧
    (checkAuthSuccess body = false ↔
      (¬(∃ s t, body.toList = s ++ "frame_navigation".toList ++ t) ∧
       ¬(∃ s t, body.toList = s ++ "pma_navigation_tree".toList ++ t))) := by
  have h1 : checkAuthSuccess body = true ↔
      ((∃ s t, body.toList = s ++ "frame_navigation".toList ++ t) ∨
       (∃ s t, body.toList = s ++ "pma_navigation_tree".toList ++ t)) := by
    rw [checkAuthSuccess_eq_or]
    simp [strIn_iff]
  refine ⟨h1, ?_⟩
  rw [Bool.eq_false_iff, Ne, h1, not_or]

/-! ## Generic search lemmas -/

theorem findAllNodes_append (p : Node → Bool) (l₁ l₂ : List Node) :
    findAllNodes p (l₁ ++ l₂) = findAllNodes p l₁ ++ findAllNodes p l₂ := by
  induction l₁ with
  | nil => simp [findAllNodes]
  | cons n rest ih => simp [findAllNodes, ih]

theorem findAllNodes_map_self {α : Type} (p : Node → Bool) (f : α → Node)
    (l : List α) (hf : ∀ x ∈ l, findAllWithin p (f x) = [f x]) :
    findAllNodes p (l.map f) = l.map f := by
  induction l with
  | nil => simp [findAllNodes]
  | cons x xs ih =>
    simp only [List.map_cons, findAllNodes]
    rw [hf x (List.mem_cons_self x xs),
      ih (fun y hy => hf y (List.mem_cons_of_mem x hy))]
    rfl

theorem findAllNodes_map_nil {α : Type} (p : Node → Bool) (f : α → Node)
    (l : List α) (hf : ∀ x ∈ l, findAllWithin p (f x) = []) :
    findAllNodes p (l.map f) = [] := by
  induction l with
  | nil => simp [findAllNodes]
  | cons x xs ih =>
    simp only [List.map_cons, findAllNodes]
    rw [hf x (List.mem_cons_self x xs),
      ih (fun y hy => hf y (List.mem_cons_of_mem x hy))]
    rfl

theorem findNode_map_none {α : Type} (p : Node → Bool) (f : α → Node)
    (l : List α) (hf : ∀ x ∈ l, findWithin p (f x) = none) :
    findNode p (l.map f) = none := by
  induction l with
  | nil => simp [findNode]
  | cons x xs ih =>
    simp only [List.map_cons, findNode]
    rw [hf x (List.mem_cons_self x xs)]
    exact ih (fun y hy => hf y (List.mem_cons_of_mem x hy))

/-! ## Parsing the constructed results table -/

theorem findAllWithin_heading_cell (h : Bool × String) :
    findAllWithin isColumnHeading (mkHeaderCell h) = [mkHeaderCell h] := by
  rcases h with ⟨b, s⟩
  cases b <;> rfl

theorem findAllWithin_heading_dataCell (s : String) :
    findAllWithin isColumnHeading (mkDataCell s) = [] := rfl

theorem findAllWithin_heading_row (r : List String) :
    findAllWithin isColumnHeading (mkBodyRow r) = [] := by
  have h0 : findAllWithin isColumnHeading (mkBodyRow r) =
      findAllNodes isColumnHeading (r.map mkDataCell) := rfl
  rw [h0]
  exact findAllNodes_map_nil _ _ _ (fun s _ => findAllWithin_heading_dataCell s)

theorem findWithin_tbody_cell (h : Bool × String) :
    findWithin (isTag "tbody") (mkHeaderCell h) = none := by
  rcases h with ⟨b, s⟩
  cases b <;> rfl

/-- The header extraction applied to one constructed header cell yields the
stripped label: through the inner link when one is present, else from the
cell itself. -/
theorem headerText_mkHeaderCell (h : Bool × String) :
    (match findDesc (isTag "a") (mkHeaderCell h) with
      | some a => getTextStrip a
      | none => getTextStrip (mkHeaderCell h)) = strTrim h.2 := by
  rcases h with ⟨b, s⟩
  cases b <;> rfl

/-- `_parse_table_data` on the constructed well-formed results table:
headers are the stripped labels in document order, rows are the stripped
cell texts with the first four cells dropped, in order. -/
theorem parse_mkResultsTable_eq (hdrs : List (Bool × String))
    (rws : List (List String)) :
    parseTableData [mkResultsTable hdrs rws] =
      some (hdrs.map (fun h => strTrim h.2),
            rws.map (fun r => (r.drop 4).map strTrim)) := by
  have hcells : findAllDesc isColumnHeading (mkResultsTable hdrs rws) =
      hdrs.map mkHeaderCell := by
    have h0 : findAllDesc isColumnHeading (mkResultsTable hdrs rws) =
        (findAllNodes isColumnHeading (hdrs.map mkHeaderCell) ++ []) ++
          (findAllNodes isColumnHeading (rws.map mkBodyRow) ++ []) := rfl
    rw [h0,
      findAllNodes_map_self isColumnHeading mkHeaderCell hdrs
        (fun x _ => findAllWithin_heading_cell x),
      findAllNodes_map_nil isColumnHeading mkBodyRow rws
        (fun r _ => findAllWithin_heading_row r)]
    simp
  have hnotb : findNode (isTag "tbody") (hdrs.map mkHeaderCell) = none :=
    findNode_map_none (isTag "tbody") mkHeaderCell hdrs
      (fun x _ => findWithin_tbody_cell x)
  have htbody : findDesc (isTag "tbody") (mkResultsTable hdrs rws) =
      some (Node.elem "tbody" [] (rws.map mkBodyRow)) := by
    have h0 : findDesc (isTag "tbody") (mkResultsTable hdrs rws) =
        (match findNode (isTag "tbody") (hdrs.map mkHeaderCell) with
          | some r => some r
          | none => some (Node.elem "tbody" [] (rws.map mkBodyRow))) := by
      simp [mkResultsTable, findDesc, findNode, findWithin, isTag]
      rcases findNode (isTag "tbody") (hdrs.map mkHeaderCell) with _ | r <;> simp
    rw [h0, hnotb]
  have htrs : findAllDesc (isTag "tr") (Node.elem "tbody" [] (rws.map mkBodyRow)) =
      rws.map mkBodyRow := by
    have h0 : findAllDesc (isTag "tr") (Node.elem "tbody" [] (rws.map mkBodyRow)) =
        findAllNodes (isTag "tr") (rws.map mkBodyRow) := rfl
    rw [h0]
    refine findAllNodes_map_self (isTag "tr") mkBodyRow rws (fun r _ => ?_)
    have h1 : findAllWithin (isTag "tr") (mkBodyRow r) =
        mkBodyRow r :: findAllNodes (isTag "tr") (r.map mkDataCell) := rfl
    rw [h1, findAllNodes_map_nil (isTag "tr") mkDataCell r (fun s _ => rfl)]
  have hrow : ∀ r : List String,
      ((findAllDesc (isTag "td") (mkBodyRow r)).drop 4).map getTextStrip =
        (r.drop 4).map strTrim := by
    intro r
    have h0 : findAllDesc (isTag "td") (mkBodyRow r) =
        findAllNodes (isTag "td") (r.map mkDataCell) := rfl
    rw [h0, findAllNodes_map_self (isTag "td") mkDataCell r (fun s _ => rfl),
      ← List.map_drop, List.map_map]
    exact List.map_congr_left (fun s _ => rfl)
  have hstep : parseTableData [mkResultsTable hdrs rws] =
      (match findDesc (isTag "tbody") (mkResultsTable hdrs rws) with
        | none => none
        | some tb =>
          some ((findAllDesc isColumnHeading (mkResultsTable hdrs rws)).map
                  (fun th =>
                    match findDesc (isTag "a") th with
                    | some a => getTextStrip a
                    | none => getTextStrip th),
                (findAllDesc (isTag "tr") tb).map
                  (fun tr =>
                    ((findAllDesc (isTag "td") tr).drop 4).map getTextStrip))) :=
    rfl
  have hA : (findAllDesc isColumnHeading (mkResultsTable hdrs rws)).map
      (fun th =>
        match findDesc (isTag "a") th with
        | some a => getTextStrip a
        | none => getTextStrip th) = hdrs.map (fun h => strTrim h.2) := by
    rw [hcells, List.map_map]
    exact List.map_congr_left (fun h _ => headerText_mkHeaderCell h)
  have hB : (findAllDesc (isTag "tr") (Node.elem "tbody" [] (rws.map mkBodyRow))).map
      (fun tr => ((findAllDesc (isTag "td") tr).drop 4).map getTextStrip) =
      rws.map (fun r => (r.drop 4).map strTrim) := by
    rw [htrs, List.map_map]
    exact List.map_congr_left (fun r _ => hrow r)
  rw [hstep, htbody]
  exact congrArg some (congrArg₂ Prod.mk hA hB)

/-! ## `find` returns `None` exactly when no node matches -/

mutual

theorem findNode_none_iff (p : Node → Bool) (l : List Node) :
    findNode p l = none ↔ ∀ n ∈ findAllNodes (fun _ => true) l, p n = false := by
  cases l with
  | nil => simp [findNode, findAllNodes]
  | cons n rest =>
    have h1 := findWithin_none_iff p n
    have h2 := findNode_none_iff p rest
    simp only [findNode, findAllNodes, List.mem_append]
    rcases hw : findWithin p n with _ | r
    · rw [hw] at h1
      simp only [hw]
      constructor
      · intro hr m hm
        rcases hm with hm | hm
        · exact (h1.mp rfl) m hm
        · exact (h2.mp hr) m hm
      · intro hall
        exact h2.mpr (fun m hm => hall m (Or.inr hm))
    · rw [hw] at h1
      simp only [hw]
      constructor
      · intro hr
        exact absurd hr (by simp)
      · intro hall
        exact absurd (h1.mpr (fun m hm => hall m (Or.inl hm))) (by simp)

theorem findWithin_none_iff (p : Node → Bool) (n : Node) :
    findWithin p n = none ↔ ∀ m ∈ findAllWithin (fun _ => true) n, p m = false := by
  cases n with
  | text s =>
    by_cases hp : p (Node.text s) = true <;>
      simp [findWithin, findAllWithin, hp]
  | elem t attrs cs =>
    have h1 := findNode_none_iff p cs
    by_cases hp : p (Node.elem t attrs cs) = true
    · simp [findWithin, findAllWithin, hp]
    · simp only [Bool.not_eq_true] at hp
      simp [findWithin, findAllWithin, hp, h1]

end

/-! ## Claims C3, C4, C5, C10: the table parser -/

/-- C3: `_parse_table_data` never raises: when no element of class
`table_results` is present in the document it returns the `(None, None)`
sentinel, and in every case it total-returns either the sentinel or a
`(headers, rows)` pair. -/
theorem parse_table_never_raises (doc : List Node) :
    ((∀ n ∈ allNodes doc, isTableResults n = false) → parseTableData doc = none) ∧
    (parseTableData doc = none ∨
      ∃ hdrs rows, parseTableData doc = some (hdrs, rows)) := by
  constructor
  · intro h
    unfold parseTableData
    rw [(findNode_none_iff isTableResults doc).mpr h]
  · rcases hp : parseTableData doc with _ | ⟨hdrs, rows⟩
    · exact Or.inl rfl
    · exact Or.inr ⟨hdrs, rows, rfl⟩

theorem parse_table_never_raises_witness :
    parseTableData [Node.elem "div" [] [Node.text "x"]] = none :=
  (parse_table_never_raises [Node.elem "div" [] [Node.text "x"]]).1 (by decide)

/-- C4: on a well-formed results table, `_parse_table_data` returns, in
document order, for each `column_heading` header cell the stripped text of
its inner link when present and of the cell itself otherwise, and for each
body row the stripped texts of its cells with the first four dropped,
preserving row and cell order. -/
theorem parse_table_headers_and_rows (hdrs : List (Bool × String))
    (rws : List (List String)) :
    parseTableData [mkResultsTable hdrs rws] =
      some (hdrs.map (fun h => strTrim h.2),
            rws.map (fun r => (r.drop 4).map strTrim)) :=
  parse_mkResultsTable_eq hdrs rws

/-- C5: a results table with header cells and zero body rows parses to
`(headers, [])`, not to the `(None, None)` sentinel. -/
theorem parse_table_zero_rows (hdrs : List (Bool × String)) :
    parseTableData [mkResultsTable hdrs []] =
      some (hdrs.map (fun h => strTrim h.2), []) ∧
    parseTableData [mkResultsTable hdrs []] ≠ none := by
  have h := parse_mkResultsTable_eq hdrs []
  simp only [List.map_nil] at h
  exact ⟨h, by rw [h]; exact Option.some_ne_none _⟩

theorem findWithin_tbody_row (r : List String) :
    findWithin (isTag "tbody") (mkBodyRow r) = none := by
  have h0 : findWithin (isTag "tbody") (mkBodyRow r) =
      findNode (isTag "tbody") (r.map mkDataCell) := rfl
  rw [h0]
  exact findNode_map_none (isTag "tbody") mkDataCell r (fun s _ => rfl)

/-- C10: a `table_results` element with no `tbody` descendant parses to the
sentinel even though header cells and row elements are present: the `tbody`
lookup yields `None`, the row extraction dereferences it, and the caught
`AttributeError` becomes `(None, None)`. -/
theorem parse_table_no_tbody_sentinel (hdrs : List (Bool × String))
    (rws : List (List String)) :
    parseTableData [mkTableNoTbody hdrs rws] = none := by
  have hnotb : findNode (isTag "tbody") (hdrs.map mkHeaderCell) = none :=
    findNode_map_none (isTag "tbody") mkHeaderCell hdrs
      (fun x _ => findWithin_tbody_cell x)
  have hrows : findNode (isTag "tbody") (rws.map mkBodyRow) = none :=
    findNode_map_none (isTag "tbody") mkBodyRow rws
      (fun r _ => findWithin_tbody_row r)
  have hno : findDesc (isTag "tbody") (mkTableNoTbody hdrs rws) = none := by
    simp [mkTableNoTbody, findDesc, findNode, findWithin, isTag, hnotb, hrows]
  have hstep : parseTableData [mkTableNoTbody hdrs rws] =
      (match findDesc (isTag "tbody") (mkTableNoTbody hdrs rws) with
        | none => none
        | some tb =>
          some ((findAllDesc isColumnHeading (mkTableNoTbody hdrs rws)).map
                  (fun th =>
                    match findDesc (isTag "a") th with
                    | some a => getTextStrip a
                    | none => getTextStrip th),
                (findAllDesc (isTag "tr") tb).map
                  (fun tr =>
                    ((findAllDesc (isTag "td") tr).drop 4).map getTextStrip))) :=
    rfl
  rw [hstep, hno]

/-! ## Claim C2: the login form payload -/

theorem dictInsert_of_not_mem (d : List (String × String)) (k v : String)
    (h : ∀ q ∈ d, q.1 ≠ k) : dictInsert d k v = d ++ [(k, v)] := by
  have hc : d.any (fun q => q.1 == k) = false := by
    rw [List.any_eq_false]
    intro q hq
    simpa using h q hq
  unfold dictInsert
  rw [hc]
  simp

theorem foldl_addHidden_append (hs : List (String × String)) :
    ∀ d : List (String × String),
      (∀ nv ∈ hs, ∀ q ∈ d, q.1 ≠ nv.1) →
      (hs.map Prod.fst).Nodup →
      (hs.map mkHidden).foldl addHidden d = d ++ hs := by
  induction hs with
  | nil =>
    intro d _ _
    simp
  | cons nv rest ih =>
    intro d hdisj hnodup
    simp only [List.map_cons, List.foldl_cons]
    have haddh : addHidden d (mkHidden nv) = dictInsert d nv.1 nv.2 := rfl
    rw [haddh, dictInsert_of_not_mem d nv.1 nv.2
      (fun q hq => hdisj nv (List.mem_cons_self nv rest) q hq)]
    have hnotin : nv.1 ∉ rest.map Prod.fst :=
      (List.nodup_cons.mp (by simpa using hnodup)).1
    rw [ih (d ++ [(nv.1, nv.2)]) ?_ (List.nodup_cons.mp (by simpa using hnodup)).2]
    · simp
    · intro mv hmv q hq
      rcases List.mem_append.mp hq with hq | hq
      · exact hdisj mv (List.mem_cons_of_mem nv hmv) q hq
      · have hq1 : q.1 = nv.1 := by
          rcases List.mem_singleton.mp hq with rfl
          rfl
        rw [hq1]
        intro he
        exact hnotin (he ▸ List.mem_map_of_mem Prod.fst hmv)

theorem find?_key_of_nodup (hs : List (String × String))
    (nv : String × String) (hmem : nv ∈ hs)
    (hnodup : (hs.map Prod.fst).Nodup) :
    hs.find? (fun q => q.1 == nv.1) = some nv := by
  induction hs with
  | nil => cases hmem
  | cons a rest ih =>
    rcases List.mem_cons.mp hmem with rfl | hmem'
    · exact List.find?_cons_of_pos _ (by simp)
    · have hne : (a.1 == nv.1) = false := by
        rw [beq_eq_false_iff_ne]
        intro he
        exact (List.nodup_cons.mp (by simpa using hnodup)).1
          (he ▸ List.mem_map_of_mem Prod.fst hmem')
      simp only [List.find?, hne]
      exact ih hmem' (List.nodup_cons.mp (by simpa using hnodup)).2

/-- C2: the payload built from a login page whose form holds the hidden
fields `hs` is exactly the credential entries followed by `hs`; when the
hidden names avoid the two credential keys and are distinct, every hidden
value survives under its own key and the credential keys hold `u` and
`p`. -/
theorem get_login_form_data_payload (u p : String)
    (hs : List (String × String))
    (hnodup : (hs.map Prod.fst).Nodup)
    (hkeys : ∀ nv ∈ hs, nv.1 ≠ "pma_username" ∧ nv.1 ≠ "pma_password") :
    getLoginFormData u p (mkLoginPage hs) =
      some ([("pma_username", u), ("pma_password", p)] ++ hs) ∧
    getAttrList ([("pma_username", u), ("pma_password", p)] ++ hs)
      "pma_username" = some u ∧
    getAttrList ([("pma_username", u), ("pma_password", p)] ++ hs)
      "pma_password" = some p ∧
    ∀ nv ∈ hs,
      getAttrList ([("pma_username", u), ("pma_password", p)] ++ hs) nv.1 =
        some nv.2 := by
  refine ⟨?_, rfl, rfl, ?_⟩
  · have hform : findNode isLoginForm (mkLoginPage hs) =
        some (Node.elem "form" [("id", "login_form")]
          (hs.map mkHidden ++ [mkSubmit])) := rfl
    have htruthy : tagTruthy (Node.elem "form" [("id", "login_form")]
        (hs.map mkHidden ++ [mkSubmit])) = true := by
      cases hs <;> rfl
    have hhid : findAllDesc isHiddenInput
        (Node.elem "form" [("id", "login_form")] (hs.map mkHidden ++ [mkSubmit])) =
        hs.map mkHidden := by
      have h0 : findAllDesc isHiddenInput
          (Node.elem "form" [("id", "login_form")]
            (hs.map mkHidden ++ [mkSubmit])) =
          findAllNodes isHiddenInput (hs.map mkHidden ++ [mkSubmit]) := rfl
      rw [h0, findAllNodes_append,
        findAllNodes_map_self isHiddenInput mkHidden hs (fun nv _ => rfl),
        show findAllNodes isHiddenInput [mkSubmit] = [] from rfl,
        List.append_nil]
    have hfold : (hs.map mkHidden).foldl addHidden
        [("pma_username", u), ("pma_password", p)] =
        [("pma_username", u), ("pma_password", p)] ++ hs := by
      refine foldl_addHidden_append hs _ ?_ hnodup
      intro nv hnv q hq
      rcases List.mem_cons.mp hq with rfl | hq
      · exact fun he => (hkeys nv hnv).1 he.symm
      · rcases List.mem_singleton.mp hq with rfl
        exact fun he => (hkeys nv hnv).2 he.symm
    unfold getLoginFormData
    rw [hform]
    show (if !tagTruthy (Node.elem "form" [("id", "login_form")]
          (hs.map mkHidden ++ [mkSubmit])) then none
        else some ((findAllDesc isHiddenInput
          (Node.elem "form" [("id", "login_form")]
            (hs.map mkHidden ++ [mkSubmit]))).foldl addHidden
          [("pma_username", u), ("pma_password", p)])) = _
    rw [htruthy, hhid, hfold]
    simp
  · intro nv hnv
    have h1 : (("pma_username" : String) == nv.1) = false :=
      beq_eq_false_iff_ne.mpr (fun he => (hkeys nv hnv).1 he.symm)
    have h2 : (("pma_password" : String) == nv.1) = false :=
      beq_eq_false_iff_ne.mpr (fun he => (hkeys nv hnv).2 he.symm)
    show getAttrList
      (("pma_username", u) :: ("pma_password", p) :: hs) nv.1 = some nv.2
    unfold getAttrList
    simp only [List.find?, h1, h2]
    rw [find?_key_of_nodup hs nv hnv hnodup]
    rfl

theorem get_login_form_data_payload_witness :
    (([("token", "xyz")] : List (String × String)).map Prod.fst).Nodup ∧
    getLoginFormData "u" "pw" (mkLoginPage [("token", "xyz")]) =
      some [("pma_username", "u"), ("pma_password", "pw"), ("token", "xyz")] :=
  ⟨by decide,
    (get_login_form_data_payload "u" "pw" [("token", "xyz")] (by decide)
      (by decide)).1⟩

/-! ## Claim C9: the result presenter -/

/-- C9: on non-empty headers and rows, `_print_results` emits the headers
joined by `" | "`, then a dash separator whose length is the summed header
lengths plus `3 * (number of headers - 1)`, then each row joined by
`" | "` (all after the fixed preamble line). -/
theorem print_results_lines (headers : List String) (rows : List (List String))
    (_hh : headers ≠ []) (_hr : rows ≠ []) :
    printResults headers rows =
      "\nРезультат:" :: String.intercalate " | " headers :: sepLine headers ::
        rows.map (String.intercalate " | ") ∧
    (sepLine headers).length =
      (headers.map String.length).sum + 3 * (headers.length - 1) ∧
    ∀ c ∈ (sepLine headers).toList, c = '-' := by
  refine ⟨rfl, ?_, ?_⟩
  · show (String.mk (List.replicate _ '-')).length = _
    simp [String.length]
  · intro c hc
    exact List.eq_of_mem_replicate
      (show c ∈ List.replicate
        ((headers.map String.length).sum + 3 * (headers.length - 1)) '-' from hc)

theorem print_results_lines_witness :
    (["A", "BB"] : List String) ≠ [] ∧
    ([["1", "2"]] : List (List String)) ≠ [] ∧
    printResults ["A", "BB"] [["1", "2"]] =
      ["\nРезультат:", "A | BB", "------", "1 | 2"] ∧
    (sepLine ["A", "BB"]).length = 6 := by
  have h := print_results_lines ["A", "BB"] [["1", "2"]]
    (by decide) (by decide)
  refine ⟨by decide, by decide, ?_, ?_⟩
  · rw [h.1]
    decide
  · rw [h.2.1]
    decide

/-! ## Claims C6, C7, C8: run orchestration -/

theorem close_not_mem_runBody (u p : String) (env : RunEnv) :
    Ev.close ∉ runBody u p env := by
  unfold runBody
  repeat' split
  all_goals simp

/-- C7: on every execution of the run — normal completion, early return
after a caught failure, or an exception propagating from any step to the
top-level handler — the session close is invoked exactly once. -/
theorem session_closed_exactly_once (u p : String) (env : RunEnv) :
    (runScraper u p env).count Ev.close = 1 := by
  unfold runScraper
  rw [List.count_append]
  rw [List.count_eq_zero.mpr (close_not_mem_runBody u p env)]
  rfl

/-- C6: the presenter is invoked only when both the parsed headers and the
parsed rows are truthy — non-`None` and non-empty. -/
theorem present_only_when_truthy (u p : String) (env : RunEnv)
    (hdrs : List String) (rows : List (List String))
    (h : Ev.present hdrs rows ∈ runScraper u p env) :
    hdrs ≠ [] ∧ rows ≠ [] := by
  unfold runScraper at h
  rw [List.mem_append] at h
  rcases h with h | h
  · unfold runBody at h
    repeat' split at h
    all_goals simp_all
  · simp at h

def envC6 : RunEnv :=
  { loginGet := .ok (mkLoginPage [("token", "xyz")])
    postLogin := .ok "pma_navigation_tree"
    tableGet := .ok [mkResultsTable [(true, "ID")] [["a", "b", "c", "d", "42"]]]
    printFails := false }

theorem present_only_when_truthy_witness :
    Ev.present ["ID"] [["42"]] ∈ runScraper "u" "pw" envC6 ∧
    (["ID"] : List String) ≠ [] ∧ ([["42"]] : List (List String)) ≠ [] :=
  ⟨by decide,
    present_only_when_truthy "u" "pw" envC6 ["ID"] [["42"]] (by decide)⟩

/-- C8: failures while fetching the login form (network failure during the
GET, or a missing form) propagate to the run's top-level handler, which
logs at critical severity and aborts; `RequestException` failures during
the login POST and the table GET, and any parse failure, are caught
locally, logged, and make the run return early — no critical log, close
still performed. -/
theorem run_error_propagation (u p : String) (env : RunEnv) :
    ((env.loginGet = .reqExc ∨ env.loginGet = .otherExc) →
      runScraper u p env = [.logError, .logCritical, .close]) ∧
    (∀ page, env.loginGet = .ok page → getLoginFormData u p page = none →
      runScraper u p env = [.logError, .logError, .logCritical, .close]) ∧
    (∀ page fd, env.loginGet = .ok page →
      getLoginFormData u p page = some fd →
      ((env.postLogin = .reqExc →
          runScraper u p env = [.logError, .close]) ∧
       (∀ body, env.postLogin = .ok body → checkAuthSuccess body = true →
        ((env.tableGet = .reqExc →
            runScraper u p env = [.logError, .close]) ∧
         (∀ html, env.tableGet = .ok html → parseTableData html = none →
            runScraper u p env = [.close]))))) := by
  refine ⟨?_, ?_, ?_⟩
  · rintro (h | h) <;> simp [runScraper, runBody, h]
  · intro page hpage hform
    simp [runScraper, runBody, hpage, hform]
  · intro page fd hpage hform
    refine ⟨?_, ?_⟩
    · intro hpost
      simp [runScraper, runBody, hpage, hform, hpost]
    · intro body hbody hauth
      refine ⟨?_, ?_⟩
      · intro htab
        simp [runScraper, runBody, hpage, hform, hbody, hauth, htab]
      · intro html htab hparse
        simp [runScraper, runBody, hpage, hform, hbody, hauth, htab, hparse]

def envC8 : RunEnv :=
  { loginGet := .reqExc
    postLogin := .ok ""
    tableGet := .ok []
    printFails := false }

theorem run_error_propagation_witness :
    runScraper "u" "pw" envC8 = [.logError, .logCritical, .close] :=
  (run_error_propagation "u" "pw" envC8).1 (Or.inl rfl)

end PmaScraper
